import Mathlib

/-!
Verification of `thrill/common/json_logger.hpp`, a JSON line logger.

The C++ code keeps one mutable state per `JsonLogger`: the collector
stream `oss_` (a growing character sequence) and the element counter
`elements_`.  A `JsonLine` holds a reference to its logger and all its
member functions only mutate that logger's state, so the whole
`JsonLine`/`JsonLogger` pair is embedded as explicit state passing on a
`JsonLogger` record.  Emitted text is modelled as `List Char` (the C++
code works on byte streams; each `char` becomes a `Char`).

The output sink (`std::cout` in `JsonLogger::Output`) is modelled as a
`Sink`: the list of complete lines written so far plus a stream-state
flag `good`.  C++ iostream semantics: inserting into a stream whose
failbit is set is a no-op and reports nothing to the caller; inserting
into a good stream appends.  `std::endl` terminates the line.
-/

/-- State of `thrill::common::JsonLogger`: the collector stream `oss_`
(modelled as the character sequence it holds) and the elements counter
`elements_` (json_logger.hpp lines 55, 58). -/
structure JsonLogger where
  oss_ : List Char
  elements_ : Nat
deriving DecidableEq

/-- The output sink of `JsonLogger::Output` (`std::cout`): the complete
lines written so far and the stream state (`good = false` models a
stream with failbit set; inserters on such a stream do nothing). -/
structure Sink where
  lines : List (List Char)
  good : Bool
deriving DecidableEq

/-- A write of one complete line to the sink: appended when the stream
is good, silently dropped when the stream has failed (iostream
semantics of `operator<<` on a failed stream). -/
def Sink.writeLine (s : Sink) (l : List Char) : Sink :=
  if s.good then { s with lines := s.lines ++ [l] } else s

/-- `JsonLine::PutEscapedChar` (json_logger.hpp lines 119-141): the
characters appended to `logger_.oss_` for one input character.  The
eight `switch` cases escape, the `default` case emits the character
verbatim. -/
def JsonLine.PutEscapedChar (ch : Char) : List Char :=
  if ch = '\\' then ['\\', '\\']
  else if ch = '"' then ['\\', '"']
  else if ch = '/' then ['\\', '/']
  else if ch = '\x08' then ['\\', 'b']
  else if ch = '\x0c' then ['\\', 'f']
  else if ch = '\n' then ['\\', 'n']
  else if ch = '\r' then ['\\', 'r']
  else if ch = '\t' then ['\\', 't']
  else [ch]

/-- The loop body of `Put(JsonLine&, std::string const&)`
(json_logger.hpp lines 194-195): every character of the string is fed
through `PutEscapedChar`, over the full length of the string. -/
def putStringChars : List Char → List Char
  | [] => []
  | c :: cs => JsonLine.PutEscapedChar c ++ putStringChars cs

/-- The loop of `Put(JsonLine&, const char* const&)` (json_logger.hpp
line 186): `for (const char* s = str; *s; ++s)` reads the buffer until
the first NUL byte and feeds each character through `PutEscapedChar`.
The argument is the character buffer the pointer points at. -/
def putCharPtrChars : List Char → List Char
  | [] => []
  | c :: cs => if c = '\x00' then [] else JsonLine.PutEscapedChar c ++ putCharPtrChars cs

/-- The closed set of value types accepted by the `Put` overloads
(json_logger.hpp lines 147-212).  The four integer overloads (`int`,
`unsigned int`, `long`, `unsigned long`) all print the decimal value
via `operator<<` and are modelled by one `int` constructor; `double` is
kept out of the model (floating-point formatting is not embedded);
`const char[N]` decays to `const char*` via `ArrayToPointerDecay`
(lines 217-233) and is modelled by `encodeCharPtr` below. -/
inductive JsonValue where
  | bool (value : Bool)
  | int (value : Int)
  | str (value : List Char)
  | arr (vec : List JsonValue)

mutual

/-- The text a `Put` overload appends to `logger_.oss_` for one value.
Every overload (json_logger.hpp lines 147-212) only appends to `oss_`
and never touches `elements_`; `encode` is that appended text.
booleans: `true`/`false` literals (line 149); integers: decimal via
`operator<<` (lines 154-175); strings: a double quote, every character
escaped, a double quote (lines 191-198); vectors: see `encodeElems`. -/
def encode : JsonValue → List Char
  | .bool value => if value then "true".toList else "false".toList
  | .int value => (toString value).toList
  | .str value => '"' :: putStringChars value ++ ['"']
  | .arr vec => '[' :: encodeElems true vec ++ [']']

/-- The element loop of `Put(JsonLine&, std::vector<Type> const&)`
(json_logger.hpp lines 204-209): `if (it != vec.begin()) oss_ << ',';`
then `PutDecay(*it)` recursively.  The flag tells whether the iterator
still is at `vec.begin()`. -/
def encodeElems : Bool → List JsonValue → List Char
  | _, [] => []
  | isBegin, e :: es => (if isBegin then [] else [',']) ++ encode e ++ encodeElems false es

end

/-- A `Put` overload call: appends `encode v` to the collector stream
and leaves the elements counter unchanged (no overload reads or writes
`elements_`). -/
def Put (lg : JsonLogger) (v : JsonValue) : JsonLogger :=
  { lg with oss_ := lg.oss_ ++ encode v }

/-- `Put(JsonLine&, const char* const&)` (json_logger.hpp lines
183-189): a double quote, the escaped characters of the buffer up to
the first NUL, a double quote.  Also the encoding of a fixed-size char
array after `ArrayToPointerDecay` (lines 217-233). -/
def encodeCharPtr (buf : List Char) : List Char :=
  '"' :: putCharPtrChars buf ++ ['"']

/-- `JsonLine::PutSeparator` (json_logger.hpp lines 112-117): when
`elements_ > 0` append a comma if `elements_` is even, a colon if odd;
then increment `elements_`. -/
def JsonLine.PutSeparator (lg : JsonLogger) : JsonLogger :=
  let lg' :=
    if lg.elements_ > 0 then
      { lg with oss_ := lg.oss_ ++ [if lg.elements_ % 2 = 0 then ',' else ':'] }
    else lg
  { lg' with elements_ := lg'.elements_ + 1 }

/-- `JsonLine::operator<<` (json_logger.hpp lines 235-239):
`PutSeparator(); return PutDecay(t);`. -/
def JsonLine.opShl (lg : JsonLogger) (v : JsonValue) : JsonLogger :=
  Put (JsonLine.PutSeparator lg) v

/-- The line `JsonLogger::Output` writes (json_logger.hpp lines 49-51):
an opening brace, the collector stream contents, a closing brace and
the line terminator of `std::endl`. -/
def JsonLogger.outputLine (lg : JsonLogger) : List Char :=
  '\x7b' :: lg.oss_ ++ ['\x7d', '\n']

/-- `JsonLogger::Output` (json_logger.hpp lines 49-51): writes the
braced collector contents plus line terminator to the sink.  The
member returns `void`: write failure is not reported (a failed stream
drops the insertion silently). -/
def JsonLogger.Output (lg : JsonLogger) (s : Sink) : Sink :=
  Sink.writeLine s lg.outputLine

/-- `JsonLine::~JsonLine` (json_logger.hpp lines 106-109):
`assert(logger_.elements_ % 2 == 0); logger_.Output();`.  A failed
assertion aborts before any output: modelled as `none`. -/
def JsonLine.dtor (lg : JsonLogger) (s : Sink) : Option Sink :=
  if lg.elements_ % 2 = 0 then some (JsonLogger.Output lg s) else none

/-- `JsonLogger::line` (json_logger.hpp lines 244-253): reset `oss_`
with `oss_.str("")` and `elements_` to 0, construct a `JsonLine` bound
to this logger, and stream the key `"ts"` followed by the microsecond
timestamp into it.  The clock value is a parameter `ts`. -/
def JsonLogger.line (lg : JsonLogger) (ts : Int) : JsonLogger :=
  let reset : JsonLogger := { lg with oss_ := [], elements_ := 0 }
  JsonLine.opShl (JsonLine.opShl reset (.str "ts".toList)) (.int ts)

/-- A fresh logger (default-constructed `JsonLogger`): empty collector
stream, zero elements. -/
def lg0 : JsonLogger := { oss_ := [], elements_ := 0 }

/-- A caller appending a flat sequence of values through
`JsonLine::operator<<`. -/
def appendVals (lg : JsonLogger) (vs : List JsonValue) : JsonLogger :=
  vs.foldl JsonLine.opShl lg

/-- A caller appending complete key/value pairs through
`JsonLine::operator<<`. -/
def appendPairs (lg : JsonLogger) (ps : List (JsonValue × JsonValue)) : JsonLogger :=
  ps.foldl (fun l kv => JsonLine.opShl (JsonLine.opShl l kv.1) kv.2) lg

/-- The end of one record when the named return value `out` of
`JsonLogger::line` (json_logger.hpp lines 248-252) is move-constructed
into the return value instead of elided (NRVO is optional in the
C++14 the code targets; `-fno-elide-constructors` forces this path).
The defaulted move constructor (line 93) copies the reference member
`logger_` and leaves the moved-from local bound to the logger, so at
the closing brace of `line()` the local's destructor (lines 106-109)
runs: its assertion sees `elements_ == 2` and passes, and it calls
`logger_.Output()` — a premature flush of the half-built record.  The
caller then appends `vs` through the returned builder and destroys it,
flushing again. -/
def emitRecordUnelidedMove (ts : Int) (vs : List JsonValue) (s : Sink) : Option Sink :=
  let lg := JsonLogger.line lg0 ts
  match JsonLine.dtor lg s with
  | none => none
  | some s1 => JsonLine.dtor (appendVals lg vs) s1

/-- The same record when every move of the builder is elided: only the
final destructor runs, flushing once. -/
def emitRecordElided (ts : Int) (vs : List JsonValue) (s : Sink) : Option Sink :=
  JsonLine.dtor (appendVals (JsonLogger.line lg0 ts) vs) s

/-- Modelled from the spec: "`Flush` can fail if the sink write fails —
this is reported to the caller as an I/O error, not swallowed".  A
flush that surfaces sink-write failure as an explicit error value. -/
def OutputSpecModel (lg : JsonLogger) (s : Sink) : Except Unit Sink :=
  if s.good then Except.ok { s with lines := s.lines ++ [lg.outputLine] }
  else Except.error ()

/-- A standard JSON string decoder, escape table per ECMA-404: the
value of one escape character following a backslash.  `\uXXXX` escapes
are rejected (the encoder under verification never produces them). -/
def decodeEscape (e : Char) : Option Char :=
  if e = '"' then some '"'
  else if e = '\\' then some '\\'
  else if e = '/' then some '/'
  else if e = 'b' then some '\x08'
  else if e = 'f' then some '\x0c'
  else if e = 'n' then some '\n'
  else if e = 'r' then some '\r'
  else if e = 't' then some '\t'
  else none

/-- Decoder for the body of a JSON string: consumes characters until an
unescaped closing double quote, which must end the input; a backslash
starts an escape decoded by `decodeEscape`; any other character stands
for itself.  (Lenient about unescaped control characters, as many
deployed decoders are; the encoder under verification passes control
characters through unescaped by design.) -/
def decodeStringBody : List Char → Option (List Char)
  | [] => none
  | c :: rest =>
    if c = '"' then (if rest.isEmpty then some [] else none)
    else if c = '\\' then
      match rest with
      | [] => none
      | e :: rest' => (decodeEscape e).bind fun d => (decodeStringBody rest').map (d :: ·)
    else (decodeStringBody rest).map (c :: ·)

/-- A standard JSON string decoder: a double quote, a body, a closing
double quote (handled inside `decodeStringBody`). -/
def jsonDecodeString : List Char → Option (List Char)
  | '"' :: rest => decodeStringBody rest
  | _ => none

/-! ## Helper lemmas -/

theorem putStringChars_eq_flatten_map (s : List Char) :
    putStringChars s = (s.map JsonLine.PutEscapedChar).flatten := by
  induction s with
  | nil => rfl
  | cons c cs ih => simp [putStringChars, ih]

theorem putStringChars_append (a b : List Char) :
    putStringChars (a ++ b) = putStringChars a ++ putStringChars b := by
  induction a with
  | nil => rfl
  | cons c cs ih => simp [putStringChars, ih]

theorem putEscapedChar_nul : JsonLine.PutEscapedChar '\x00' = ['\x00'] := rfl

theorem putEscapedChar_not_in_table (c : Char)
    (h : c ∉ (['\\', '"', '/', '\x08', '\x0c', '\n', '\r', '\t'] : List Char)) :
    JsonLine.PutEscapedChar c = [c] := by
  simp only [List.mem_cons, List.mem_singleton] at h
  push_neg at h
  obtain ⟨h1, h2, h3, h4, h5, h6, h7, h8⟩ := h
  simp [JsonLine.PutEscapedChar, h1, h2, h3, h4, h5, h6, h7, h8]

theorem putCharPtrChars_no_nul (s : List Char) (h : '\x00' ∉ s) :
    putCharPtrChars s = putStringChars s := by
  induction s with
  | nil => rfl
  | cons c cs ih =>
    have hc : ¬ c = '\x00' := fun e => h (by rw [e]; exact List.mem_cons_self _ _)
    have hcs : '\x00' ∉ cs := fun m => h (List.mem_cons_of_mem _ m)
    simp [putCharPtrChars, putStringChars, hc, ih hcs]

theorem putCharPtrChars_eq_takeWhile (buf : List Char) :
    putCharPtrChars buf = putStringChars (buf.takeWhile fun c => c ≠ '\x00') := by
  induction buf with
  | nil => rfl
  | cons c cs ih =>
    by_cases hc : c = '\x00'
    · subst hc
      simp [putCharPtrChars, putStringChars]
    · simp [putCharPtrChars, putStringChars, hc, ih]

theorem opShl_elements (lg : JsonLogger) (v : JsonValue) :
    (JsonLine.opShl lg v).elements_ = lg.elements_ + 1 := by
  simp only [JsonLine.opShl, Put, JsonLine.PutSeparator]
  split <;> rfl

theorem opShl_oss_zero (lg : JsonLogger) (v : JsonValue) (h : lg.elements_ = 0) :
    (JsonLine.opShl lg v).oss_ = lg.oss_ ++ encode v := by
  simp [JsonLine.opShl, Put, JsonLine.PutSeparator, h]

theorem opShl_oss_even (lg : JsonLogger) (v : JsonValue) (h0 : lg.elements_ % 2 = 0)
    (hpos : 0 < lg.elements_) :
    (JsonLine.opShl lg v).oss_ = lg.oss_ ++ ',' :: encode v := by
  simp [JsonLine.opShl, Put, JsonLine.PutSeparator, h0, hpos]

theorem opShl_oss_odd (lg : JsonLogger) (v : JsonValue) (h1 : lg.elements_ % 2 = 1) :
    (JsonLine.opShl lg v).oss_ = lg.oss_ ++ ':' :: encode v := by
  have hpos : 0 < lg.elements_ := by omega
  have hne : ¬ lg.elements_ % 2 = 0 := by omega
  simp [JsonLine.opShl, Put, JsonLine.PutSeparator, hne, hpos]

theorem line_eq (lg : JsonLogger) (ts : Int) :
    JsonLogger.line lg ts =
      { oss_ := "\"ts\":".toList ++ (toString ts).toList, elements_ := 2 } := rfl

theorem appendVals_elements (vs : List JsonValue) :
    ∀ lg : JsonLogger, (appendVals lg vs).elements_ = lg.elements_ + vs.length := by
  induction vs with
  | nil => intro lg; rfl
  | cons v vs ih =>
    intro lg
    have h := ih (JsonLine.opShl lg v)
    simp only [appendVals, List.foldl_cons] at h ⊢
    rw [h]
    simp only [opShl_elements, List.length_cons]
    omega

theorem appendPairs_spec (ps : List (JsonValue × JsonValue)) :
    ∀ lg : JsonLogger, lg.elements_ % 2 = 0 → 0 < lg.elements_ →
      (appendPairs lg ps).oss_ =
        lg.oss_ ++ (ps.map fun kv => ',' :: encode kv.1 ++ ':' :: encode kv.2).flatten ∧
      (appendPairs lg ps).elements_ = lg.elements_ + 2 * ps.length := by
  induction ps with
  | nil => intro lg _ _; exact ⟨by simp [appendPairs], by simp [appendPairs]⟩
  | cons kv ps ih =>
    intro lg h0 hpos
    have h1e : (JsonLine.opShl lg kv.1).elements_ = lg.elements_ + 1 :=
      opShl_elements lg kv.1
    have h2e : (JsonLine.opShl (JsonLine.opShl lg kv.1) kv.2).elements_ = lg.elements_ + 2 := by
      rw [opShl_elements, h1e]
    have h1o := opShl_oss_even lg kv.1 h0 hpos
    have h2o := opShl_oss_odd (JsonLine.opShl lg kv.1) kv.2 (by omega)
    obtain ⟨iho, ihe⟩ :=
      ih (JsonLine.opShl (JsonLine.opShl lg kv.1) kv.2) (by omega) (by omega)
    constructor
    · simp only [appendPairs, List.foldl_cons] at iho ⊢
      rw [iho, h2o, h1o]
      simp
    · simp only [appendPairs, List.foldl_cons] at ihe ⊢
      rw [ihe, h2e]
      simp [Nat.mul_add, Nat.mul_succ]
      omega

theorem intercalate_comma_cons (a : List Char) (as : List (List Char)) :
    List.intercalate [','] (a :: as) = a ++ (as.map fun b => ',' :: b).flatten := by
  induction as generalizing a with
  | nil => simp [List.intercalate]
  | cons b bs ih =>
    have h := ih b
    simp only [List.intercalate, List.intersperse_cons₂, List.flatten_cons] at h ⊢
    rw [h]
    simp

theorem encodeElems_false_eq (l : List JsonValue) :
    encodeElems false l = (l.map fun e => ',' :: encode e).flatten := by
  induction l with
  | nil => rfl
  | cons e es ih => simp [encodeElems, ih]

theorem encodeElems_true_eq (l : List JsonValue) :
    encodeElems true l = List.intercalate [','] (l.map encode) := by
  cases l with
  | nil => rfl
  | cons e es =>
    simp [encodeElems, encodeElems_false_eq, intercalate_comma_cons, List.map_map]
    rfl

theorem decodeStringBody_escaped (c e : Char) (t : List Char) (h : decodeEscape e = some c) :
    decodeStringBody ('\\' :: e :: t) = (decodeStringBody t).map (c :: ·) := by
  show (decodeEscape e).bind (fun d => (decodeStringBody t).map (d :: ·)) = _
  rw [h]
  rfl

theorem decodeStringBody_verbatim (c : Char) (t : List Char)
    (h1 : ¬ c = '"') (h2 : ¬ c = '\\') :
    decodeStringBody (c :: t) = (decodeStringBody t).map (c :: ·) := by
  rw [decodeStringBody.eq_def]
  simp [h1, h2]

theorem decode_putStringChars (s : List Char)
    (h : ∀ c ∈ s, c ∈ (['\\', '"', '\n', '\t'] : List Char) ∨
      c ∉ (['\\', '"', '/', '\x08', '\x0c', '\n', '\r', '\t'] : List Char)) :
    decodeStringBody (putStringChars s ++ ['"']) = some s := by
  induction s with
  | nil => rfl
  | cons c cs ih =>
    have hc := h c (List.mem_cons_self c cs)
    have ihcs := ih (fun x hx => h x (List.mem_cons_of_mem c hx))
    rcases hc with hin | hout
    · simp only [List.mem_cons] at hin
      rcases hin with rfl | rfl | rfl | rfl | h0
      · show decodeStringBody ('\\' :: '\\' :: (putStringChars cs ++ ['"'])) = _
        rw [decodeStringBody_escaped '\\' '\\' _ rfl, ihcs]
        rfl
      · show decodeStringBody ('\\' :: '"' :: (putStringChars cs ++ ['"'])) = _
        rw [decodeStringBody_escaped '"' '"' _ rfl, ihcs]
        rfl
      · show decodeStringBody ('\\' :: 'n' :: (putStringChars cs ++ ['"'])) = _
        rw [decodeStringBody_escaped '\n' 'n' _ rfl, ihcs]
        rfl
      · show decodeStringBody ('\\' :: 't' :: (putStringChars cs ++ ['"'])) = _
        rw [decodeStringBody_escaped '\t' 't' _ rfl, ihcs]
        rfl
      · exact absurd h0 (List.not_mem_nil c)
    · have h1 : ¬ c = '"' := fun e => hout (by rw [e]; decide)
      have h2 : ¬ c = '\\' := fun e => hout (by rw [e]; decide)
      have he := putEscapedChar_not_in_table c hout
      show decodeStringBody ((JsonLine.PutEscapedChar c ++ putStringChars cs) ++ ['"']) = _
      rw [he, List.singleton_append, List.cons_append,
        decodeStringBody_verbatim c _ h1 h2, ihcs]
      rfl

/-! ## Claim theorems -/

/-- C1: for a record built by `JsonLogger::line` (which injects the
`"ts"` pair) followed by `n` complete key/value pairs appended through
`JsonLine::operator<<`, `Output` writes to a good sink exactly one
line: an opening brace, the body, a closing brace and the line
terminator, where the body is the `"ts"` key, a colon, the decimal
timestamp, then every appended pair in insertion order as comma, key,
colon, value — separators per the parity rule of `PutSeparator`, no
whitespace, no trailing separator. -/
theorem flush_format (ts : Int) (ps : List (JsonValue × JsonValue)) (s : Sink)
    (hs : s.good = true) :
    (JsonLogger.Output (appendPairs (JsonLogger.line lg0 ts) ps) s).lines =
      s.lines ++ ['\x7b' :: ("\"ts\":".toList ++ (toString ts).toList ++
        (ps.map fun kv => ',' :: encode kv.1 ++ ':' :: encode kv.2).flatten) ++ ['\x7d', '\n']] := by
  have hpar : (JsonLogger.line lg0 ts).elements_ % 2 = 0 := by simp [line_eq]
  have hpos : 0 < (JsonLogger.line lg0 ts).elements_ := by simp [line_eq]
  obtain ⟨ho, he⟩ := appendPairs_spec ps (JsonLogger.line lg0 ts) hpar hpos
  have ho' : (appendPairs (JsonLogger.line lg0 ts) ps).oss_ =
      ("\"ts\":".toList ++ (toString ts).toList) ++
        (ps.map fun kv => ',' :: encode kv.1 ++ ':' :: encode kv.2).flatten := by
    rw [ho, line_eq]
  simp only [JsonLogger.Output, Sink.writeLine, JsonLogger.outputLine, hs, if_true]
  rw [ho']

theorem flush_format_witness :
    (JsonLogger.Output (appendPairs (JsonLogger.line lg0 3)
          [(JsonValue.str "a".toList, JsonValue.int 1)])
        { lines := [], good := true }).lines =
      ([] : List (List Char)) ++ ['\x7b' :: ("\"ts\":".toList ++ (toString (3 : Int)).toList ++
        ([(JsonValue.str "a".toList, JsonValue.int 1)].map
          fun kv => ',' :: encode kv.1 ++ ':' :: encode kv.2).flatten) ++ ['\x7d', '\n']] :=
  flush_format 3 [(JsonValue.str "a".toList, JsonValue.int 1)]
    { lines := [], good := true } rfl

/-- C2: destroying a `JsonLine` after an odd number of appended values
fails the destructor's unbalanced-pairs assertion
(`assert(logger_.elements_ % 2 == 0)`) and nothing is emitted; after an
even number of appended values the destructor calls the logger's
`Output` exactly then. -/
theorem dtor_parity (ts : Int) (vs : List JsonValue) (s : Sink) :
    (vs.length % 2 = 1 →
      JsonLine.dtor (appendVals (JsonLogger.line lg0 ts) vs) s = none) ∧
    (vs.length % 2 = 0 →
      JsonLine.dtor (appendVals (JsonLogger.line lg0 ts) vs) s =
        some (JsonLogger.Output (appendVals (JsonLogger.line lg0 ts) vs) s)) := by
  have he : (appendVals (JsonLogger.line lg0 ts) vs).elements_ = 2 + vs.length := by
    rw [appendVals_elements vs (JsonLogger.line lg0 ts), line_eq]
  constructor
  · intro h
    have hodd : ¬ ((appendVals (JsonLogger.line lg0 ts) vs).elements_ % 2 = 0) := by omega
    simp [JsonLine.dtor, hodd]
  · intro h
    have heven : (appendVals (JsonLogger.line lg0 ts) vs).elements_ % 2 = 0 := by omega
    simp [JsonLine.dtor, heven]

theorem dtor_parity_witness :
    JsonLine.dtor (appendVals (JsonLogger.line lg0 0) [JsonValue.int 1])
      { lines := [], good := true } = none :=
  (dtor_parity 0 [JsonValue.int 1] { lines := [], good := true }).1 (by decide)

/-- C3 (code bug): the defaulted move constructor
`JsonLine(JsonLine&&) = default` copies the `logger_` reference and
leaves the moved-from builder bound, and `~JsonLine` flushes
unconditionally — so when the return of `JsonLogger::line` is moved
rather than elided (NRVO is optional in C++14;
`-fno-elide-constructors` forces the move), one started record flushes
TWICE: a premature partial line holding only the timestamp pair, then
the full line.  With the move elided the same record flushes once.
The claim's "flushed exactly once on every execution path" is
therefore violated by the code. -/
theorem unelided_move_double_flush :
    emitRecordUnelidedMove 5 [JsonValue.str "a".toList, JsonValue.int 1]
        { lines := [], good := true } =
      some { lines := ["\x7b\"ts\":5\x7d\n".toList, "\x7b\"ts\":5,\"a\":1\x7d\n".toList],
             good := true } ∧
    emitRecordElided 5 [JsonValue.str "a".toList, JsonValue.int 1]
        { lines := [], good := true } =
      some { lines := ["\x7b\"ts\":5,\"a\":1\x7d\n".toList], good := true } :=
  ⟨by decide, by decide⟩

/-- C4 counterexample: flushing into a failed sink.  The code's
`Output` (`std::cout << ...` from a `void` member) silently drops the
record: the returned sink state equals the input sink, no error value
exists for the caller of the flush, while the spec-modelled flush
(`OutputSpecModel`, which follows the spec's words) reports an
explicit I/O error.  The claim "the failure is reported to the caller
... rather than being swallowed" is therefore false of the code. -/
theorem output_failed_sink_swallowed :
    JsonLogger.Output (JsonLogger.line lg0 7) { lines := ["x".toList], good := false } =
      { lines := ["x".toList], good := false } ∧
    OutputSpecModel (JsonLogger.line lg0 7) { lines := ["x".toList], good := false } =
      Except.error () :=
  ⟨rfl, rfl⟩

/-- C4 amended: if the sink write fails during flush, the failure is
NOT reported to the caller — `Output` returns normally and the record
is silently dropped (iostream failbit semantics); the core does not
retry (at most one line is written per flush) and previously flushed
lines are never lost (the sink's line list is only ever extended). -/
theorem flush_failure_no_loss (lg : JsonLogger) (s : Sink) :
    (s.good = true →
      JsonLogger.Output lg s = { lines := s.lines ++ [lg.outputLine], good := true }) ∧
    (s.good = false → JsonLogger.Output lg s = s) ∧
    ∃ t, (JsonLogger.Output lg s).lines = s.lines ++ t ∧ t.length ≤ 1 := by
  refine ⟨fun h => ?_, fun h => ?_, ?_⟩
  · simp [JsonLogger.Output, Sink.writeLine, h]
  · simp [JsonLogger.Output, Sink.writeLine, h]
  · by_cases h : s.good
    · exact ⟨[lg.outputLine], by simp [JsonLogger.Output, Sink.writeLine, h], by simp⟩
    · exact ⟨[], by simp [JsonLogger.Output, Sink.writeLine, h], by simp⟩

theorem flush_failure_no_loss_witness :
    JsonLogger.Output lg0 { lines := [], good := false } = { lines := [], good := false } :=
  (flush_failure_no_loss lg0 { lines := [], good := false }).2.1 rfl

/-- C5: `JsonLogger::line` resets the collector stream to empty and
the elements counter to 0 (so its result is independent of any prior
logger state), and writes the `"ts"` key followed by the timestamp as
the first key/value pair (leaving `elements_ = 2`).  No output reaches
the sink: `line` does not touch a `Sink` at all — in this development
only `JsonLogger.Output` (reached through `JsonLine.dtor`) does.  The
returned builder bound to the logger is the threaded state itself. -/
theorem line_resets_and_writes_ts (lg : JsonLogger) (ts : Int) :
    (JsonLogger.line lg ts).oss_ = "\"ts\":".toList ++ (toString ts).toList ∧
    (JsonLogger.line lg ts).elements_ = 2 ∧
    JsonLogger.line lg ts = JsonLogger.line lg0 ts :=
  ⟨by rw [line_eq], by rw [line_eq], by rw [line_eq, line_eq]⟩

/-- C6: a text value (std::string over its full length, or a C string
free of NUL bytes) is encoded as a double quote, each character
transformed by the escaping table, and a closing double quote; the
table maps backslash, double quote, slash, backspace, form-feed,
newline, carriage return and tab to their two-character escapes, and
every other character to itself, verbatim. -/
theorem escape_table (s : List Char) :
    encode (JsonValue.str s) = '"' :: (s.map JsonLine.PutEscapedChar).flatten ++ ['"'] ∧
    ('\x00' ∉ s →
      encodeCharPtr s = '"' :: (s.map JsonLine.PutEscapedChar).flatten ++ ['"']) ∧
    JsonLine.PutEscapedChar '\\' = ['\\', '\\'] ∧
    JsonLine.PutEscapedChar '"' = ['\\', '"'] ∧
    JsonLine.PutEscapedChar '/' = ['\\', '/'] ∧
    JsonLine.PutEscapedChar '\x08' = ['\\', 'b'] ∧
    JsonLine.PutEscapedChar '\x0c' = ['\\', 'f'] ∧
    JsonLine.PutEscapedChar '\n' = ['\\', 'n'] ∧
    JsonLine.PutEscapedChar '\r' = ['\\', 'r'] ∧
    JsonLine.PutEscapedChar '\t' = ['\\', 't'] ∧
    (∀ c : Char, c ∉ (['\\', '"', '/', '\x08', '\x0c', '\n', '\r', '\t'] : List Char) →
      JsonLine.PutEscapedChar c = [c]) := by
  refine ⟨?_, fun h => ?_, rfl, rfl, rfl, rfl, rfl, rfl, rfl, rfl, putEscapedChar_not_in_table⟩
  · show '"' :: putStringChars s ++ ['"'] = _
    rw [putStringChars_eq_flatten_map]
  · show '"' :: putCharPtrChars s ++ ['"'] = _
    rw [putCharPtrChars_no_nul s h, putStringChars_eq_flatten_map]

theorem escape_table_witness : JsonLine.PutEscapedChar 'x' = ['x'] :=
  (escape_table []).2.2.2.2.2.2.2.2.2.2 'x' (by decide)

/-- C7: encoding a string whose characters are drawn from backslash,
double quote, newline, tab and characters outside the escaping table,
then decoding the result with a standard JSON string decoder, returns
the original string unchanged. -/
theorem escape_decode_roundtrip (s : List Char)
    (h : ∀ c ∈ s, c ∈ (['\\', '"', '\n', '\t'] : List Char) ∨
      c ∉ (['\\', '"', '/', '\x08', '\x0c', '\n', '\r', '\t'] : List Char)) :
    jsonDecodeString (encode (JsonValue.str s)) = some s := by
  show decodeStringBody (putStringChars s ++ ['"']) = some s
  exact decode_putStringChars s h

theorem escape_decode_roundtrip_witness :
    jsonDecodeString (encode (JsonValue.str "a\"\n\\x".toList)) = some "a\"\n\\x".toList :=
  escape_decode_roundtrip "a\"\n\\x".toList (by decide)

/-- C8: a vector value is encoded as an opening bracket, the elements
encoded recursively by the value dispatch with a single comma between
consecutive elements (never through `PutSeparator` — the elements
counter is unchanged), and a closing bracket; output order is element
order, including for nested vectors (`encode` recurses through
`List.map`). -/
theorem vector_encoding (lg : JsonLogger) (l : List JsonValue) :
    (Put lg (JsonValue.arr l)).oss_ =
      lg.oss_ ++ '[' :: (List.intercalate [','] (l.map encode) ++ [']']) ∧
    (Put lg (JsonValue.arr l)).elements_ = lg.elements_ := by
  constructor
  · show lg.oss_ ++ encode (JsonValue.arr l) = _
    rw [show encode (JsonValue.arr l) = '[' :: (encodeElems true l ++ [']']) from rfl,
      encodeElems_true_eq]
  · rfl

/-- C10: a value passed as `const char*` (or a fixed-size char array,
which decays to it) is encoded exactly as the std::string holding the
characters strictly before the first NUL byte — an embedded NUL
silently truncates — while a std::string value is encoded over its
full length, an embedded NUL passing through verbatim. -/
theorem cstring_truncation (buf pre post : List Char) :
    encodeCharPtr buf = encode (JsonValue.str (buf.takeWhile fun c => c ≠ '\x00')) ∧
    encode (JsonValue.str (pre ++ '\x00' :: post)) =
      '"' :: (putStringChars pre ++ '\x00' :: putStringChars post) ++ ['"'] := by
  constructor
  · show '"' :: putCharPtrChars buf ++ ['"'] = '"' :: putStringChars _ ++ ['"']
    rw [putCharPtrChars_eq_takeWhile]
  · show '"' :: putStringChars (pre ++ '\x00' :: post) ++ ['"'] = _
    rw [show ((pre ++ '\x00' :: post) : List Char) = pre ++ ('\x00' :: post) from rfl,
      putStringChars_append]
    simp [putStringChars, putEscapedChar_nul]
